import Mathlib

/-!
Verification of the SDF text renderer core (`src/metal/lib`): the
layout/upload cache (`text_renderer.cpp`) and the SDF atlas generation
driver (`glyph_texture.cpp`).

Machine floats of the source are embedded as exact rationals (`ℚ`); the
Metal shader sources and `common/utils.hpp` are not part of the provided
sources, so the pieces of behaviour they decide are modelled from the
specification and marked `Modelled from the spec:` in their doc comments.
-/

namespace SdfText

/-! ## Glyph set data model (`glyph_set.hpp`) -/

/-- Border around each glyph in the atlas, `GlyphSet::kBorderInPixels = 4`. -/
def kBorderInPixels : ℕ := 4

/-- Per-glyph data, mirroring `GlyphSet::GlyphData`: outline line segments
(each a `glm::vec4`, i.e. two 2D points), advance, rendering offset, logical
size, pixel size in the atlas and pixel position in the atlas. -/
structure GlyphData where
  lines : List (ℚ × ℚ × ℚ × ℚ)
  advance : ℚ
  offsetX : ℚ
  offsetY : ℚ
  sizeX : ℚ
  sizeY : ℚ
  pixelSizeX : ℕ
  pixelSizeY : ℕ
  posInAtlasX : ℕ
  posInAtlasY : ℕ
deriving DecidableEq

/-- Zero glyph record, used only to totalize lookups whose failure the
source guards with `assert` (unreachable under the stated precondition). -/
def defaultGlyphData : GlyphData :=
  ⟨[], 0, 0, 0, 0, 0, 0, 0, 0, 0⟩

/-- A glyph set: code-point-keyed glyph records plus the atlas size,
mirroring `GlyphSet` (`m_glyphs`, `m_atlasSize`). The `unordered_map` is
embedded as an association list. -/
structure GlyphSet where
  glyphs : List (ℕ × GlyphData)
  atlasSizeX : ℕ
  atlasSizeY : ℕ
deriving DecidableEq

/-- Lookup of a code point in the glyph set: `glyphs.find(c)`. -/
def findGlyph (gs : GlyphSet) (c : ℕ) : Option GlyphData :=
  (gs.glyphs.find? (fun p => p.1 = c)).map (fun p => p.2)

/-- Space code point, `' '`. -/
def spaceCode : ℕ := 32

/-- Glyph lookup with the space fallback of `TextRenderer::addText`
(text_renderer.cpp:115-119): a code point absent from the set resolves to
the space glyph's record. -/
def resolveGlyph (gs : GlyphSet) (c : ℕ) : Option GlyphData :=
  match findGlyph gs c with
  | some gd => some gd
  | none => findGlyph gs spaceCode

/-- Total version of `resolveGlyph`; the `none` case corresponds to the
`assert(it != glyphs.end())` the source places after the space fallback. -/
def resolveGlyphD (gs : GlyphSet) (c : ℕ) : GlyphData :=
  (resolveGlyph gs c).getD defaultGlyphData

/-! ## Layout cache data model (`text_renderer.hpp`, `sdf_text_types.h`) -/

/-- Per-instance glyph quad, mirroring `Glyph` of `sdf_text_types.h`:
center, half size, UV center, UV half size, color. -/
structure Glyph where
  centerX : ℚ
  centerY : ℚ
  halfSizeX : ℚ
  halfSizeY : ℚ
  uvCenterX : ℚ
  uvCenterY : ℚ
  uvHalfSizeX : ℚ
  uvHalfSizeY : ℚ
  colR : ℚ
  colG : ℚ
  colB : ℚ
  colA : ℚ
deriving DecidableEq

/-- One `addText` request: the string (as code points), the top-left
anchor, the box size and the color. -/
structure TextRequest where
  s : List ℕ
  leftTopX : ℚ
  leftTopY : ℚ
  sizeX : ℚ
  sizeY : ℚ
  colR : ℚ
  colG : ℚ
  colB : ℚ
  colA : ℚ
deriving DecidableEq

/-- One value folded into the running fingerprint: either a whole string or
one numeric parameter. -/
inductive HashVal where
  | hstr (s : List ℕ)
  | hnum (q : ℚ)
deriving DecidableEq

/-- Modelled from the spec: `utils::hashCombine` lives in
`common/utils.hpp`, which is not among the provided sources. The spec
(§3 LayoutFingerprint, §4.3) describes the fingerprint as an
"order-sensitive combined hash of all active draw-text request parameters"
into which every character and every numeric parameter is folded, such
that different fold orders give different fingerprints; it is modelled as
the free (collision-free) order-sensitive accumulation of the folded
values. -/
def hashCombine (h : List HashVal) (v : HashVal) : List HashVal :=
  h ++ [v]

/-- The nine `hashCombine` calls of `TextRenderer::addText`
(text_renderer.cpp:97-105): string, leftTop.x, leftTop.y, size.x, size.y,
color.r, color.g, color.b, color.a, in this order. -/
def foldRequestHash (h : List HashVal) (req : TextRequest) : List HashVal :=
  hashCombine (hashCombine (hashCombine (hashCombine (hashCombine
    (hashCombine (hashCombine (hashCombine (hashCombine h
      (.hstr req.s)) (.hnum req.leftTopX)) (.hnum req.leftTopY))
      (.hnum req.sizeX)) (.hnum req.sizeY)) (.hnum req.colR))
      (.hnum req.colG)) (.hnum req.colB)) (.hnum req.colA)

/-- Quad built for one character before the layouting pass
(text_renderer.cpp:120-137): `halfSize = size * 0.5`,
`uvHalfSize = pixelSize * 0.5 / atlasSize`,
`center = (offsetX, 0) + offset + halfSize`,
`uvCenter = posInAtlas / atlasSize + uvHalfSize`,
`uvHalfSize -= border / atlasSize`, plus the request color. -/
def mkGlyphFor (gs : GlyphSet) (colR colG colB colA : ℚ) (c : ℕ)
    (offsetX : ℚ) : Glyph :=
  let gd := resolveGlyphD gs c
  let aW : ℚ := (gs.atlasSizeX : ℚ)
  let aH : ℚ := (gs.atlasSizeY : ℚ)
  let hx := gd.sizeX * (1/2)
  let hy := gd.sizeY * (1/2)
  let uvhx := (gd.pixelSizeX : ℚ) * (1/2) / aW
  let uvhy := (gd.pixelSizeY : ℚ) * (1/2) / aH
  { centerX := offsetX + gd.offsetX + hx
    centerY := gd.offsetY + hy
    halfSizeX := hx
    halfSizeY := hy
    uvCenterX := (gd.posInAtlasX : ℚ) / aW + uvhx
    uvCenterY := (gd.posInAtlasY : ℚ) / aH + uvhy
    uvHalfSizeX := uvhx - (kBorderInPixels : ℚ) / aW
    uvHalfSizeY := uvhy - (kBorderInPixels : ℚ) / aH
    colR := colR, colG := colG, colB := colB, colA := colA }

/-- Character placement loop of `TextRenderer::addText`
(text_renderer.cpp:112-143): walks the string left to right, building one
quad per character; `offsetX` advances and `maxY` tracks the maximal
vertical extent only while a next character exists (`i + 1 < s.size()`).
Returns the placed quads and the final `(offsetX, maxY)`. -/
def placeLoop (gs : GlyphSet) (colR colG colB colA : ℚ) :
    List ℕ → ℚ → ℚ → List Glyph × ℚ × ℚ
  | [], offsetX, maxY => ([], offsetX, maxY)
  | c :: rest, offsetX, maxY =>
    let gd := resolveGlyphD gs c
    let g := mkGlyphFor gs colR colG colB colA c offsetX
    match rest with
    | [] => ([g], offsetX, maxY)
    | c' :: rest' =>
      let r := placeLoop gs colR colG colB colA (c' :: rest')
        (offsetX + gd.advance) (max maxY (g.centerY + g.halfSizeY))
      (g :: r.1, r.2)

/-- The pair of denominators `(offsetX, maxY)` feeding the scale division
of `addText` (text_renderer.cpp:146). -/
def layoutDenominators (gs : GlyphSet) (s : List ℕ) : ℚ × ℚ :=
  (placeLoop gs 0 0 0 0 s 0 0).2

/-- Uniform scale factor of `addText` (text_renderer.cpp:146):
`min(size.x / offsetX, size.y / maxY)`. In `ℚ`, division by zero yields 0;
in the IEEE source it yields an infinity — either way the division is
performed, there is no special case. -/
def addTextScale (gs : GlyphSet) (s : List ℕ) (sizeX sizeY : ℚ) : ℚ :=
  let d := layoutDenominators gs s
  min (sizeX / d.1) (sizeY / d.2)

/-- State of the layout cache (`TextRenderer` fields): pending quads,
running and previous fingerprints, instance-buffer capacity and the quad
contents last uploaded to the buffer, plus a counter of performed uploads
(a `memcpy` into the buffer). -/
structure RState where
  screenGlyphs : List Glyph
  screenGlyphsHash : List HashVal
  prevScreenGlyphsHash : List HashVal
  glyphBufferSize : ℕ
  glyphBuffer : List Glyph
  uploads : ℕ
deriving DecidableEq

/-- Initial buffer capacity, `kGlyphBufferDefaultSize = 1000`
(text_renderer.cpp:23). -/
def kGlyphBufferDefaultSize : ℕ := 1000

/-- State right after `TextRenderer::initialize`
(text_renderer.cpp:35-39): capacity 1000, freshly allocated
(uninitialized) buffer modelled as the empty written prefix. -/
def initState : RState :=
  ⟨[], [], [], kGlyphBufferDefaultSize, [], 0⟩

/-- `TextRenderer::beginLayouting` (text_renderer.cpp:83-87): clear the
pending quads, roll the fingerprint forward, reset the running one. -/
def beginLayouting (st : RState) : RState :=
  { st with
    screenGlyphs := []
    prevScreenGlyphsHash := st.screenGlyphsHash
    screenGlyphsHash := [] }

/-- `TextRenderer::addText` (text_renderer.cpp:89-157): an empty string
returns immediately; otherwise fold the parameters into the running
fingerprint, place one quad per character, then rescale and recenter the
newly placed quads into the request box. -/
def addText (gs : GlyphSet) (st : RState) (req : TextRequest) : RState :=
  if req.s = [] then st
  else
    let h := foldRequestHash st.screenGlyphsHash req
    let r := placeLoop gs req.colR req.colG req.colB req.colA req.s 0 0
    let offsetX := r.2.1
    let maxY := r.2.2
    let scale := min (req.sizeX / offsetX) (req.sizeY / maxY)
    let layoutOffsetX := (req.sizeX - offsetX * scale) * (1/2)
    let layoutOffsetY := (req.sizeY - maxY * scale) * (1/2)
    let placed := r.1.map (fun g =>
      { g with
        centerX := req.leftTopX + g.centerX * scale + layoutOffsetX
        centerY := req.leftTopY + g.centerY * scale + layoutOffsetY
        halfSizeX := g.halfSizeX * scale
        halfSizeY := g.halfSizeY * scale })
    { st with
      screenGlyphsHash := h
      screenGlyphs := st.screenGlyphs ++ placed }

/-- Capacity growth loop of `TextRenderer::endLayouting`
(text_renderer.cpp:167-170): double the capacity until the quad count
fits. The source would loop forever from capacity 0; that case is
unreachable (capacity starts at 1000) and is given the junk value 0. -/
def growSize (cap n : ℕ) : ℕ :=
  if n ≤ cap then cap
  else if cap = 0 then 0
  else growSize (2 * cap) n
termination_by n - cap
decreasing_by omega

/-- `TextRenderer::endLayouting` (text_renderer.cpp:159-180): identical
fingerprints skip everything; otherwise grow the capacity (doubling) when
the quad count exceeds it, reallocate if grown, and `memcpy` the quads
into the buffer. -/
def endLayouting (st : RState) : RState :=
  if st.screenGlyphsHash = st.prevScreenGlyphsHash then st
  else
    { st with
      glyphBufferSize := growSize st.glyphBufferSize st.screenGlyphs.length
      glyphBuffer := st.screenGlyphs
      uploads := st.uploads + 1 }

/-- One full layout pass: `beginLayouting`, the given `addText` requests
in order, `endLayouting`. -/
def runPass (gs : GlyphSet) (st : RState) (reqs : List TextRequest) :
    RState :=
  endLayouting (reqs.foldl (fun s r => addText gs s r) (beginLayouting st))

/-- Several layout passes in sequence. -/
def runPasses (gs : GlyphSet) (st : RState)
    (passes : List (List TextRequest)) : RState :=
  passes.foldl (fun s p => runPass gs s p) st

/-! ## SDF atlas generation driver (`glyph_texture.cpp`) -/

/-- Total number of outline segments over all glyphs, skipping glyphs with
empty line lists (`linesBufferSize`, glyph_texture.cpp:85-94). -/
def linesBufferSize (glyphs : List (ℕ × GlyphData)) : ℕ :=
  glyphs.foldl (fun acc p => if p.2.lines = [] then acc
    else acc + p.2.lines.length) 0

/-- Per-glyph offsets into the packed line buffer (`lineOffsets`,
glyph_texture.cpp:86-94): a running sum over the non-empty glyphs. -/
def lineOffsetsFrom : List (ℕ × GlyphData) → ℕ → List (ℕ × ℕ)
  | [], _ => []
  | (c, gd) :: rest, acc =>
    if gd.lines = [] then lineOffsetsFrom rest acc
    else (c, acc) :: lineOffsetsFrom rest (acc + gd.lines.length)

/-- Offset of one glyph in the packed line buffer. -/
def lineOffsetOf (glyphs : List (ℕ × GlyphData)) (c : ℕ) : ℕ :=
  ((lineOffsetsFrom glyphs 0).find? (fun p => p.1 = c)).elim 0 (fun p => p.2)

/-- One SDF-generation work item (one indirect compute command,
glyph_texture.cpp:226-264): the absolute atlas pixel offset its
accumulators live at, the pixel-center sample point in local glyph space,
and the glyph's segment range (`SdfGenParams`). -/
structure WorkItem where
  pixelOffset : ℕ
  pointPosX : ℚ
  pointPosY : ℚ
  linesCount : ℕ
  lineBufferOffset : ℕ
deriving DecidableEq

/-- Work items of one glyph (glyph_texture.cpp:226-265): one per pixel of
the glyph's atlas rectangle, row by row, with
`offset = (posInAtlas.y + j) * atlasSize.x + (posInAtlas.x + i)` and
sample point `(i + 0.5, j + 0.5)`. -/
def glyphWorkItems (atlasW lineOff : ℕ) (gd : GlyphData) : List WorkItem :=
  (List.range gd.pixelSizeY).flatMap (fun j =>
    (List.range gd.pixelSizeX).map (fun i =>
      { pixelOffset := (gd.posInAtlasY + j) * atlasW + (gd.posInAtlasX + i)
        pointPosX := (i : ℚ) + 1/2
        pointPosY := (j : ℚ) + 1/2
        linesCount := gd.lines.length
        lineBufferOffset := lineOff }))

/-- All SDF-generation work items (glyph_texture.cpp:222-267): glyphs with
an empty line list contribute none. -/
def allWorkItems (gs : GlyphSet) : List WorkItem :=
  gs.glyphs.flatMap (fun p =>
    if p.2.lines = [] then []
    else glyphWorkItems gs.atlasSizeX (lineOffsetOf gs.glyphs p.1) p.2)

/-- `INT_MAX`, the initial per-pixel minimum distance
(glyph_texture.cpp:145). -/
def intMax : ℤ := 2 ^ 31 - 1

/-- Initial per-pixel accumulators (glyph_texture.cpp:144-147):
`minDistance = INT_MAX`, `intersectionNumber = 0` at every offset. -/
def initAccum : ℕ → ℤ × ℕ :=
  fun _ => (intMax, 0)

/-- Point update of the accumulator array at one offset. -/
def updateAt (o : ℕ) (f : ℤ × ℕ → ℤ × ℕ) (a : ℕ → ℤ × ℕ) : ℕ → ℤ × ℕ :=
  fun p => if p = o then f (a p) else a p

/-- Effect of running the work items over the accumulators: each item
updates only the accumulator pair at its own pixel offset (the
`sdfGenerate` kernel is bound exactly to that offset,
glyph_texture.cpp:241-244). The per-item arithmetic `u` is the shader's
and is universally quantified in the theorems. -/
def runItems (u : WorkItem → ℤ × ℕ → ℤ × ℕ) (items : List WorkItem)
    (a : ℕ → ℤ × ℕ) : ℕ → ℤ × ℕ :=
  items.foldl (fun acc it => updateAt it.pixelOffset (u it) acc) a

/-- Modelled from the spec: the `sdfWriteTexture` compute shader is not
among the provided sources. Per §4.2 steps 4-5 it folds the accumulated
minimum distance and crossing parity of a pixel into a signed distance and
maps it to one output byte, 128 sitting on the outline, larger values
inside (odd parity), smaller outside, clamped; the exact quantization
curve is left open by the spec (§9), so a clamped linear map with a
fixed-point distance scale is used. Untouched pixels
(`minDistance = INT_MAX`, parity 0) clamp to the fully "outside" byte 0. -/
def writeTexturePixel (md : ℤ) (par : ℕ) : ℕ :=
  let q := md / (2 ^ 16)
  if par % 2 = 1 then (min 255 (128 + q)).toNat
  else (127 - min 127 q).toNat

/-- Fully "outside" byte value, the placeholder texture's single texel
(`uint8_t val = 0`, glyph_texture.cpp:109). -/
def outsideByte : ℕ := 0

/-- Per-submission capacity of `executeCommandsInBuffer`,
`kMaxCommands = 8192` (glyph_texture.cpp:276). -/
def kMaxCommands : ℕ := 8192

/-- Submission loop of `GlyphTexture::generate` (glyph_texture.cpp:277-281):
`for (start = 0; start < n; start += kMaxCommands)` submits the range
`[start, start + min(n - start, kMaxCommands))`. Each list entry is a
`(location, length)` range. -/
def chunkRangesFrom (start n : ℕ) : List (ℕ × ℕ) :=
  if start < n then
    (start, min (n - start) kMaxCommands) :: chunkRangesFrom
      (start + kMaxCommands) n
  else []
termination_by n - start
decreasing_by simp [kMaxCommands]; omega

/-- All submitted ranges for `n` work items. -/
def chunkRanges (n : ℕ) : List (ℕ × ℕ) :=
  chunkRangesFrom 0 n

/-- Whether a range `(location, length)` covers work-item index `i`. -/
def coversIdx (i : ℕ) (r : ℕ × ℕ) : Bool :=
  r.1 ≤ i && i < r.1 + r.2

/-- Result of `GlyphTexture::generate`, restricted to what the embedding
can observe: either the 1×1 placeholder texture with its texel bytes
(glyph_texture.cpp:97-112), or an atlas-sized texture produced by the
compute pipeline together with the work items built and the command
ranges submitted. (The source's second early return, when all rectangles
have zero area, is the `computed` case with no items.) -/
inductive GenResult where
  | placeholder (w h : ℕ) (data : List ℕ)
  | computed (w h : ℕ) (items : List WorkItem) (submitted : List (ℕ × ℕ))
deriving DecidableEq

/-- Driver of `GlyphTexture::generate` (glyph_texture.cpp:82-294): zero
total segments short-circuit to the 1×1 placeholder before any compute
work is created; otherwise the work items are built and submitted in
chunks of at most `kMaxCommands`. -/
def generate (gs : GlyphSet) : GenResult :=
  if linesBufferSize gs.glyphs = 0 then .placeholder 1 1 [outsideByte]
  else
    let items := allWorkItems gs
    if items.length = 0 then .computed gs.atlasSizeX gs.atlasSizeY [] []
    else .computed gs.atlasSizeX gs.atlasSizeY items
      (chunkRanges items.length)

/-! ## Derived characterizations used in the theorem statements -/

/-- The nine values one non-empty request folds into the fingerprint, in
source order. -/
def requestHashVals (req : TextRequest) : List HashVal :=
  [.hstr req.s, .hnum req.leftTopX, .hnum req.leftTopY, .hnum req.sizeX,
   .hnum req.sizeY, .hnum req.colR, .hnum req.colG, .hnum req.colB,
   .hnum req.colA]

/-- Fingerprint contribution of a request list: empty strings contribute
nothing (`addText` returns before hashing), every other request its nine
values in order. -/
def hashTrail : List TextRequest → List HashVal
  | [] => []
  | r :: rs => (if r.s = [] then [] else requestHashVals r) ++ hashTrail rs

/-- Content width the spec prescribes for the fit: the cumulative advance
accumulated before the last glyph. -/
def specTotalWidth (gs : GlyphSet) (s : List ℕ) : ℚ :=
  (s.dropLast.map (fun c => (resolveGlyphD gs c).advance)).sum

/-- Vertical extent of one placed glyph, `center.y + halfSize.y`
= offset.y + size.y. -/
def glyphExtent (gs : GlyphSet) (c : ℕ) : ℚ :=
  (resolveGlyphD gs c).offsetY + (resolveGlyphD gs c).sizeY

/-- Maximal vertical extent reached while a next character exists. -/
def specMaxHeight (gs : GlyphSet) (s : List ℕ) : ℚ :=
  (s.dropLast.map (glyphExtent gs)).foldl max 0

/-- Being the smallest power-of-two multiple of `base` that is at least
`n`. -/
def IsSmallestPow2MultGe (base n c : ℕ) : Prop :=
  (∃ k, c = base * 2 ^ k) ∧ n ≤ c ∧
    ∀ d, (∃ k, d = base * 2 ^ k) → n ≤ d → c ≤ d

/-! ## Concrete fixtures for witnesses and counterexamples -/

/-- Space glyph: no outline segments, advance 5. -/
def wsSpace : GlyphData := ⟨[], 5, 0, 0, 0, 0, 0, 0, 6, 6⟩

/-- Glyph for code point 97 (`a`): advance 10, one segment, extent 18. -/
def wsA : GlyphData := ⟨[(0, 0, 1, 1)], 10, 1, 2, 8, 16, 2, 2, 0, 0⟩

/-- Glyph for code point 98 (`b`): advance 12, one segment. -/
def wsB : GlyphData := ⟨[(0, 0, 1, 2)], 12, 1, 2, 8, 16, 2, 2, 4, 0⟩

/-- Concrete glyph set containing a space entry, glyphs `a` and `b`, in an
8×8 atlas. -/
def wsGlyphSet : GlyphSet := ⟨[(32, wsSpace), (97, wsA), (98, wsB)], 8, 8⟩

/-- Concrete glyph set whose every glyph has an empty line list. -/
def wsEmptyGlyphSet : GlyphSet := ⟨[(32, wsSpace)], 8, 8⟩

/-- Request with an empty string and red color. -/
def reqEmptyRed : TextRequest := ⟨[], 0, 0, 1, 1, 1, 0, 0, 1⟩

/-- Request with an empty string and blue color: same string and
placement as `reqEmptyRed`, different color. -/
def reqEmptyBlue : TextRequest := ⟨[], 0, 0, 1, 1, 0, 0, 1, 1⟩

/-- Request drawing `a` in a 100×50 box, red. -/
def reqARed : TextRequest := ⟨[97], 0, 0, 100, 50, 1, 0, 0, 1⟩

/-- Request drawing `b` in a 100×50 box, blue. -/
def reqBBlue : TextRequest := ⟨[98], 0, 0, 100, 50, 0, 0, 1, 1⟩

/-- Request drawing `ab` in a 100×50 box, red: the concrete fit scenario
of the spec (§8). -/
def reqAB : TextRequest := ⟨[97, 98], 0, 0, 100, 50, 1, 0, 0, 1⟩

/-! ## Basic lemmas -/

theorem resolveGlyph_isSome (gs : GlyphSet) (c : ℕ)
    (hsp : (findGlyph gs spaceCode).isSome) :
    (resolveGlyph gs c).isSome := by
  unfold resolveGlyph
  cases h : findGlyph gs c with
  | none => exact hsp
  | some gd => rfl

/-! ## C10 -/

/-- C10: calling `addText` with an empty string is a no-op: the pending
quad list, the running fingerprint and all other cache state are left
unchanged. -/
theorem addText_empty_string_noop (gs : GlyphSet) (st : RState)
    (req : TextRequest) (h : req.s = []) :
    addText gs st req = st := by
  simp [addText, h]

/-- Witness for C10 at a concrete empty-string request. -/
theorem addText_empty_string_noop_witness :
    reqEmptyRed.s = [] ∧ addText wsGlyphSet initState reqEmptyRed = initState :=
  ⟨rfl, addText_empty_string_noop wsGlyphSet initState reqEmptyRed rfl⟩

/-! ## C4 -/

/-- C4: a code point absent from the glyph set resolves to the space
glyph's record, so the quad built for it is the quad the space glyph's
data would build; provided the set contains a space entry this fallback
never fails (the resolved lookup is always `some`). -/
theorem missing_glyph_space_fallback (gs : GlyphSet) (c : ℕ)
    (colR colG colB colA offsetX : ℚ)
    (hsp : (findGlyph gs spaceCode).isSome) :
    (resolveGlyph gs c).isSome ∧
      (findGlyph gs c = none →
        resolveGlyph gs c = findGlyph gs spaceCode ∧
        mkGlyphFor gs colR colG colB colA c offsetX =
          mkGlyphFor gs colR colG colB colA spaceCode offsetX) := by
  refine ⟨resolveGlyph_isSome gs c hsp, fun habs => ?_⟩
  have h1 : resolveGlyph gs c = findGlyph gs spaceCode := by
    unfold resolveGlyph
    rw [habs]
  refine ⟨h1, ?_⟩
  have h2 : resolveGlyph gs spaceCode = findGlyph gs spaceCode := by
    unfold resolveGlyph
    cases h : findGlyph gs spaceCode with
    | none => rfl
    | some gd => rfl
  unfold mkGlyphFor resolveGlyphD
  rw [h1, h2]

/-- Witness for C4: code point 64 is absent from `wsGlyphSet`, which
contains a space entry. -/
theorem missing_glyph_space_fallback_witness :
    ((findGlyph wsGlyphSet spaceCode).isSome ∧
      (resolveGlyph wsGlyphSet 64).isSome ∧
      (findGlyph wsGlyphSet 64 = none →
        resolveGlyph wsGlyphSet 64 = findGlyph wsGlyphSet spaceCode ∧
        mkGlyphFor wsGlyphSet 1 0 0 1 64 0 =
          mkGlyphFor wsGlyphSet 1 0 0 1 spaceCode 0)) :=
  ⟨by decide, missing_glyph_space_fallback wsGlyphSet 64 1 0 0 1 0 (by decide)⟩

/-! ## C5 -/

/-- C5 (refuting the claimed special case): for every single-character
string the placement loop leaves both scale denominators at zero, and the
scale is computed as `min (sizeX / 0) (sizeY / 0)` — the division by zero
is performed, no special case exists in `addText`
(text_renderer.cpp:139-148). -/
theorem single_char_zero_denominators (gs : GlyphSet) (c : ℕ)
    (sizeX sizeY : ℚ) :
    layoutDenominators gs [c] = (0, 0) ∧
      addTextScale gs [c] sizeX sizeY = min (sizeX / 0) (sizeY / 0) := by
  constructor
  · rfl
  · rfl

/-! ## C9 -/

theorem mkGlyphFor_extent (gs : GlyphSet) (cr cg cb ca : ℚ) (c : ℕ)
    (x : ℚ) :
    (mkGlyphFor gs cr cg cb ca c x).centerY +
      (mkGlyphFor gs cr cg cb ca c x).halfSizeY = glyphExtent gs c := by
  simp only [mkGlyphFor, glyphExtent]
  ring

theorem placeLoop_snd (gs : GlyphSet) (cr cg cb ca : ℚ) :
    ∀ (s : List ℕ) (x m : ℚ),
      (placeLoop gs cr cg cb ca s x m).2 =
        (x + (s.dropLast.map (fun c => (resolveGlyphD gs c).advance)).sum,
         (s.dropLast.map (glyphExtent gs)).foldl max m)
  | [], x, m => by simp [placeLoop]
  | [c], x, m => by simp [placeLoop]
  | c :: c' :: rest, x, m => by
    have ih := placeLoop_snd gs cr cg cb ca (c' :: rest)
      (x + (resolveGlyphD gs c).advance) (max m (glyphExtent gs c))
    simp only [placeLoop, mkGlyphFor_extent, List.dropLast_cons₂,
      List.map_cons, List.sum_cons, List.foldl_cons]
    rw [ih, add_assoc]

/-- C9: for every `addText` call with at least two characters the uniform
scale factor equals `min (boxWidth / totalWidth) (boxHeight / maxHeight)`
where `totalWidth` is the cumulative advance accumulated before the last
glyph and `maxHeight` the maximal vertical extent reached before the last
glyph; the loop denominators of `addText` equal those spec quantities. -/
theorem addText_scale_fit_formula (gs : GlyphSet) (req : TextRequest)
    (h : 2 ≤ req.s.length) :
    addTextScale gs req.s req.sizeX req.sizeY =
      min (req.sizeX / specTotalWidth gs req.s)
        (req.sizeY / specMaxHeight gs req.s) ∧
    (placeLoop gs req.colR req.colG req.colB req.colA req.s 0 0).2 =
      (specTotalWidth gs req.s, specMaxHeight gs req.s) := by
  constructor
  · unfold addTextScale layoutDenominators
    rw [placeLoop_snd]
    simp [specTotalWidth, specMaxHeight]
  · rw [placeLoop_snd]
    simp [specTotalWidth, specMaxHeight]

/-- Witness for C9: the concrete `"ab"` scenario — advances 10 and 12,
100×50 box; the content width used for scaling is 10. -/
theorem addText_scale_fit_formula_witness :
    2 ≤ reqAB.s.length ∧
    (addTextScale wsGlyphSet reqAB.s reqAB.sizeX reqAB.sizeY =
      min (reqAB.sizeX / specTotalWidth wsGlyphSet reqAB.s)
        (reqAB.sizeY / specMaxHeight wsGlyphSet reqAB.s) ∧
     (placeLoop wsGlyphSet reqAB.colR reqAB.colG reqAB.colB reqAB.colA
        reqAB.s 0 0).2 =
      (specTotalWidth wsGlyphSet reqAB.s, specMaxHeight wsGlyphSet reqAB.s)) ∧
    specTotalWidth wsGlyphSet reqAB.s = 10 :=
  ⟨by decide, addText_scale_fit_formula wsGlyphSet reqAB (by decide),
   by norm_num [specTotalWidth, resolveGlyphD, resolveGlyph, findGlyph,
     wsGlyphSet, wsA, wsSpace, wsB, reqAB, List.find?]⟩

/-! ## Layout-cache state lemmas -/

theorem foldRequestHash_eq (h : List HashVal) (req : TextRequest) :
    foldRequestHash h req = h ++ requestHashVals req := by
  simp [foldRequestHash, hashCombine, requestHashVals]

theorem addText_preserves (gs : GlyphSet) (st : RState) (r : TextRequest) :
    (addText gs st r).prevScreenGlyphsHash = st.prevScreenGlyphsHash ∧
    (addText gs st r).glyphBufferSize = st.glyphBufferSize ∧
    (addText gs st r).glyphBuffer = st.glyphBuffer ∧
    (addText gs st r).uploads = st.uploads := by
  unfold addText
  split <;> simp

theorem addText_hash (gs : GlyphSet) (st : RState) (r : TextRequest) :
    (addText gs st r).screenGlyphsHash =
      st.screenGlyphsHash ++ (if r.s = [] then [] else requestHashVals r) := by
  unfold addText
  split
  · next h => simp [h]
  · next h => simp [h, foldRequestHash_eq]

theorem foldl_addText_preserves (gs : GlyphSet) (reqs : List TextRequest) :
    ∀ st : RState,
      (reqs.foldl (fun s r => addText gs s r) st).prevScreenGlyphsHash =
        st.prevScreenGlyphsHash ∧
      (reqs.foldl (fun s r => addText gs s r) st).glyphBufferSize =
        st.glyphBufferSize ∧
      (reqs.foldl (fun s r => addText gs s r) st).glyphBuffer =
        st.glyphBuffer ∧
      (reqs.foldl (fun s r => addText gs s r) st).uploads = st.uploads := by
  induction reqs with
  | nil => exact fun st => ⟨rfl, rfl, rfl, rfl⟩
  | cons r rs ih =>
    intro st
    have h := addText_preserves gs st r
    have h2 := ih (addText gs st r)
    simp only [List.foldl_cons]
    exact ⟨h2.1.trans h.1, h2.2.1.trans h.2.1, h2.2.2.1.trans h.2.2.1,
      h2.2.2.2.trans h.2.2.2⟩

theorem foldl_addText_hash (gs : GlyphSet) (reqs : List TextRequest) :
    ∀ st : RState,
      (reqs.foldl (fun s r => addText gs s r) st).screenGlyphsHash =
        st.screenGlyphsHash ++ hashTrail reqs := by
  induction reqs with
  | nil => intro st; simp [hashTrail]
  | cons r rs ih =>
    intro st
    simp only [List.foldl_cons, hashTrail]
    rw [ih, addText_hash, List.append_assoc]

theorem endLayouting_skip (st : RState)
    (h : st.screenGlyphsHash = st.prevScreenGlyphsHash) :
    endLayouting st = st := by
  unfold endLayouting
  rw [if_pos h]

theorem endLayouting_hash (st : RState) :
    (endLayouting st).screenGlyphsHash = st.screenGlyphsHash := by
  unfold endLayouting
  split <;> rfl

theorem endLayouting_screenGlyphs (st : RState) :
    (endLayouting st).screenGlyphs = st.screenGlyphs := by
  unfold endLayouting
  split <;> rfl

/-! ## C1 -/

/-- C1: two consecutive layout passes over the same request sequence
compute identical fingerprints, and the second `endLayouting` performs no
upload: the glyph buffer's contents, its capacity and the upload counter
are unchanged. -/
theorem layout_pass_idempotent (gs : GlyphSet) (st0 : RState)
    (reqs : List TextRequest) :
    (runPass gs (runPass gs st0 reqs) reqs).screenGlyphsHash =
      (runPass gs st0 reqs).screenGlyphsHash ∧
    (runPass gs (runPass gs st0 reqs) reqs).glyphBuffer =
      (runPass gs st0 reqs).glyphBuffer ∧
    (runPass gs (runPass gs st0 reqs) reqs).glyphBufferSize =
      (runPass gs st0 reqs).glyphBufferSize ∧
    (runPass gs (runPass gs st0 reqs) reqs).uploads =
      (runPass gs st0 reqs).uploads := by
  have h1 : (runPass gs st0 reqs).screenGlyphsHash = hashTrail reqs := by
    unfold runPass
    rw [endLayouting_hash, foldl_addText_hash]
    rfl
  have hp := foldl_addText_preserves gs reqs
    (beginLayouting (runPass gs st0 reqs))
  have hBhash :
      (reqs.foldl (fun s r => addText gs s r)
        (beginLayouting (runPass gs st0 reqs))).screenGlyphsHash =
        hashTrail reqs := by
    rw [foldl_addText_hash]
    rfl
  have hBprev :
      (reqs.foldl (fun s r => addText gs s r)
        (beginLayouting (runPass gs st0 reqs))).prevScreenGlyphsHash =
        hashTrail reqs := by
    rw [hp.1]
    exact h1
  have hend : runPass gs (runPass gs st0 reqs) reqs =
      reqs.foldl (fun s r => addText gs s r)
        (beginLayouting (runPass gs st0 reqs)) := by
    show endLayouting _ = _
    exact endLayouting_skip _ (hBhash.trans hBprev.symm)
  rw [hend]
  exact ⟨hBhash.trans h1.symm, hp.2.2.1, hp.2.1, hp.2.2.2⟩

/-! ## C8 -/

/-- C8 counterexample: two `addText` calls with different content (same
empty string, different colors) are both skipped by the empty-string early
return of `addText` (text_renderer.cpp:92-94), so swapping them leaves the
running fingerprint unchanged — the claim fails as stated. -/
theorem order_swap_equal_fingerprint_ctrex :
    reqEmptyRed ≠ reqEmptyBlue ∧
    (addText wsGlyphSet (addText wsGlyphSet (beginLayouting initState)
        reqEmptyRed) reqEmptyBlue).screenGlyphsHash =
      (addText wsGlyphSet (addText wsGlyphSet (beginLayouting initState)
        reqEmptyBlue) reqEmptyRed).screenGlyphsHash :=
  ⟨by decide, rfl⟩

/-- C8 amended: for every two `addText` calls with nonempty strings and
different content (string, placement rectangle, or color), performing them
in swapped order produces a different running fingerprint, from any
starting cache state. -/
theorem order_swap_changes_fingerprint (gs : GlyphSet) (st : RState)
    (a b : TextRequest) (ha : a.s ≠ []) (hb : b.s ≠ []) (hab : a ≠ b) :
    (addText gs (addText gs st a) b).screenGlyphsHash ≠
      (addText gs (addText gs st b) a).screenGlyphsHash := by
  intro heq
  rw [addText_hash, addText_hash, addText_hash, addText_hash, if_neg ha,
    if_neg hb, List.append_assoc, List.append_assoc] at heq
  have h2 := List.append_cancel_left heq
  have hlen : (requestHashVals a).length = (requestHashVals b).length := rfl
  have h3 : requestHashVals a = requestHashVals b := by
    calc requestHashVals a
        = (requestHashVals a ++ requestHashVals b).take
            (requestHashVals a).length := (List.take_left _ _).symm
      _ = (requestHashVals b ++ requestHashVals a).take
            (requestHashVals b).length := by rw [h2, hlen]
      _ = requestHashVals b := List.take_left _ _
  apply hab
  cases a
  cases b
  simp only [requestHashVals, List.cons.injEq, HashVal.hstr.injEq,
    HashVal.hnum.injEq, and_true] at h3
  simp_all

/-- Witness for the amended C8 at two concrete nonempty requests differing
in string and color. -/
theorem order_swap_changes_fingerprint_witness :
    reqARed.s ≠ [] ∧ reqBBlue.s ≠ [] ∧ reqARed ≠ reqBBlue ∧
    (addText wsGlyphSet (addText wsGlyphSet (beginLayouting initState)
        reqARed) reqBBlue).screenGlyphsHash ≠
      (addText wsGlyphSet (addText wsGlyphSet (beginLayouting initState)
        reqBBlue) reqARed).screenGlyphsHash :=
  ⟨by decide, by decide, by decide,
   order_swap_changes_fingerprint wsGlyphSet (beginLayouting initState)
     reqARed reqBBlue (by decide) (by decide) (by decide)⟩

/-! ## Capacity growth lemmas -/

theorem growSize_le (cap n : ℕ) : cap ≤ growSize cap n := by
  unfold growSize
  split
  · exact le_rfl
  · next h1 =>
    split
    · next h2 => omega
    · next h2 =>
      have ih := growSize_le (2 * cap) n
      omega
termination_by n - cap
decreasing_by omega

theorem growSize_ge (cap n : ℕ) (h : 0 < cap) : n ≤ growSize cap n := by
  unfold growSize
  split
  · next h1 => exact h1
  · next h1 =>
    split
    · next h2 => omega
    · next h2 => exact growSize_ge (2 * cap) n (by omega)
termination_by n - cap
decreasing_by omega

theorem growSize_pow (cap n : ℕ) : ∃ t, growSize cap n = cap * 2 ^ t := by
  unfold growSize
  split
  · exact ⟨0, by ring⟩
  · next h1 =>
    split
    · next h2 => exact ⟨0, by simp [h2]⟩
    · next h2 =>
      obtain ⟨t, ht⟩ := growSize_pow (2 * cap) n
      exact ⟨t + 1, by rw [ht]; ring⟩
termination_by n - cap
decreasing_by omega

theorem growSize_min (cap n : ℕ) (h : 0 < cap) :
    ∀ d, (∃ t, d = cap * 2 ^ t) → n ≤ d → growSize cap n ≤ d := by
  intro d hd hnd
  unfold growSize
  split
  · obtain ⟨t, rfl⟩ := hd
    simpa using Nat.mul_le_mul_left cap (Nat.one_le_two_pow (n := t))
  · next h1 =>
    split
    · next h2 => omega
    · next h2 =>
      obtain ⟨t, rfl⟩ := hd
      have ht1 : 1 ≤ t := by
        by_contra hc
        have ht0 : t = 0 := by omega
        subst ht0
        simp at hnd
        omega
      obtain ⟨t', rfl⟩ : ∃ t', t = t' + 1 := ⟨t - 1, by omega⟩
      refine growSize_min (2 * cap) n (by omega) (cap * 2 ^ (t' + 1))
        ⟨t', by ring⟩ hnd
termination_by n - cap
decreasing_by omega

theorem growSize_of_le (cap n : ℕ) (h : n ≤ cap) : growSize cap n = cap := by
  unfold growSize
  rw [if_pos h]

theorem endLayouting_size_mono (st : RState) :
    st.glyphBufferSize ≤ (endLayouting st).glyphBufferSize := by
  unfold endLayouting
  split
  · exact le_rfl
  · exact growSize_le _ _

theorem runPass_foldl_size (gs : GlyphSet) (st : RState)
    (reqs : List TextRequest) :
    (reqs.foldl (fun s r => addText gs s r)
      (beginLayouting st)).glyphBufferSize = st.glyphBufferSize :=
  (foldl_addText_preserves gs reqs (beginLayouting st)).2.1

theorem runPass_size_mono (gs : GlyphSet) (st : RState)
    (reqs : List TextRequest) :
    st.glyphBufferSize ≤ (runPass gs st reqs).glyphBufferSize := by
  have h1 := runPass_foldl_size gs st reqs
  calc st.glyphBufferSize
      = (reqs.foldl (fun s r => addText gs s r)
          (beginLayouting st)).glyphBufferSize := h1.symm
    _ ≤ (runPass gs st reqs).glyphBufferSize := endLayouting_size_mono _

theorem runPass_size_pow (gs : GlyphSet) (st : RState)
    (reqs : List TextRequest)
    (h : ∃ k, st.glyphBufferSize = kGlyphBufferDefaultSize * 2 ^ k) :
    ∃ k, (runPass gs st reqs).glyphBufferSize =
      kGlyphBufferDefaultSize * 2 ^ k := by
  obtain ⟨k, hk⟩ := h
  show ∃ k, (endLayouting _).glyphBufferSize = _
  unfold endLayouting
  split
  · exact ⟨k, by rw [runPass_foldl_size gs st reqs]; exact hk⟩
  · obtain ⟨t, ht⟩ := growSize_pow
      ((reqs.foldl (fun s r => addText gs s r)
        (beginLayouting st)).glyphBufferSize)
      ((reqs.foldl (fun s r => addText gs s r)
        (beginLayouting st)).screenGlyphs.length)
    refine ⟨k + t, ?_⟩
    rw [ht, runPass_foldl_size gs st reqs, hk, pow_add, mul_assoc]

theorem runPasses_size_pow (gs : GlyphSet)
    (passes : List (List TextRequest)) :
    ∀ st : RState,
      (∃ k, st.glyphBufferSize = kGlyphBufferDefaultSize * 2 ^ k) →
      ∃ k, (runPasses gs st passes).glyphBufferSize =
        kGlyphBufferDefaultSize * 2 ^ k := by
  induction passes with
  | nil => exact fun st h => h
  | cons p ps ih =>
    intro st h
    exact ih (runPass gs st p) (runPass_size_pow gs st p h)

theorem endLayouting_growth (st : RState)
    (hne : (endLayouting st).glyphBufferSize ≠ st.glyphBufferSize)
    (hpow : ∃ k, st.glyphBufferSize = kGlyphBufferDefaultSize * 2 ^ k) :
    IsSmallestPow2MultGe kGlyphBufferDefaultSize
      (endLayouting st).screenGlyphs.length
      (endLayouting st).glyphBufferSize := by
  by_cases hh : st.screenGlyphsHash = st.prevScreenGlyphsHash
  · rw [endLayouting_skip st hh] at hne
    exact absurd rfl hne
  · have hsz : (endLayouting st).glyphBufferSize =
        growSize st.glyphBufferSize st.screenGlyphs.length := by
      unfold endLayouting
      rw [if_neg hh]
    have hsg := endLayouting_screenGlyphs st
    obtain ⟨k, hk⟩ := hpow
    have hcappos : 0 < st.glyphBufferSize := by
      rw [hk]
      simp [kGlyphBufferDefaultSize]
    have hlt : st.glyphBufferSize < st.screenGlyphs.length := by
      by_contra hle
      exact hne (by rw [hsz, growSize_of_le _ _ (by omega)])
    refine ⟨?_, ?_, ?_⟩
    · obtain ⟨t, ht⟩ := growSize_pow st.glyphBufferSize
        st.screenGlyphs.length
      exact ⟨k + t, by rw [hsz, ht, hk, pow_add, mul_assoc]⟩
    · rw [hsg, hsz]
      exact growSize_ge _ _ hcappos
    · intro d hd hnd
      rw [hsg] at hnd
      obtain ⟨m, rfl⟩ := hd
      have h2 : 2 ^ k < 2 ^ m := by
        have h1 : kGlyphBufferDefaultSize * 2 ^ k <
            kGlyphBufferDefaultSize * 2 ^ m := by
          calc kGlyphBufferDefaultSize * 2 ^ k
              = st.glyphBufferSize := hk.symm
            _ < st.screenGlyphs.length := hlt
            _ ≤ kGlyphBufferDefaultSize * 2 ^ m := hnd
        exact lt_of_mul_lt_mul_left h1 (Nat.zero_le _)
      have hkm : k < m := (Nat.pow_lt_pow_iff_right (by norm_num)).mp h2
      rw [hsz]
      refine growSize_min _ _ hcappos _ ⟨m - k, ?_⟩ hnd
      rw [hk, mul_assoc, ← pow_add]
      congr 2
      omega

/-! ## C7 -/

/-- C7: across any sequence of layout passes from the initial state
(capacity 1000), one further pass never shrinks the instance-buffer
capacity, and whenever the pass grows the capacity the new capacity is the
smallest power-of-two multiple of the original capacity that is at least
the current quad count. -/
theorem capacity_doubling_invariant (gs : GlyphSet)
    (passes : List (List TextRequest)) (reqs : List TextRequest) :
    (runPasses gs initState passes).glyphBufferSize ≤
      (runPass gs (runPasses gs initState passes) reqs).glyphBufferSize ∧
    ((runPass gs (runPasses gs initState passes) reqs).glyphBufferSize ≠
        (runPasses gs initState passes).glyphBufferSize →
      IsSmallestPow2MultGe kGlyphBufferDefaultSize
        (runPass gs (runPasses gs initState passes)
          reqs).screenGlyphs.length
        (runPass gs (runPasses gs initState passes)
          reqs).glyphBufferSize) := by
  refine ⟨runPass_size_mono gs (runPasses gs initState passes) reqs,
    fun hne => ?_⟩
  have hfold := runPass_foldl_size gs (runPasses gs initState passes) reqs
  have hpowB : ∃ k,
      (reqs.foldl (fun s r => addText gs s r)
        (beginLayouting (runPasses gs initState passes))).glyphBufferSize =
        kGlyphBufferDefaultSize * 2 ^ k := by
    rw [hfold]
    exact runPasses_size_pow gs passes initState ⟨0, by simp [initState]⟩
  have hrp : runPass gs (runPasses gs initState passes) reqs =
      endLayouting (reqs.foldl (fun s r => addText gs s r)
        (beginLayouting (runPasses gs initState passes))) := rfl
  have hne' : (endLayouting (reqs.foldl (fun s r => addText gs s r)
      (beginLayouting (runPasses gs initState passes)))).glyphBufferSize ≠
      (reqs.foldl (fun s r => addText gs s r)
        (beginLayouting (runPasses gs initState passes))).glyphBufferSize := by
    rw [← hrp, hfold]
    exact hne
  have h := endLayouting_growth _ hne' hpowB
  rw [hrp]
  exact h

/-! ## Chunked submission lemmas -/

theorem chunkRangesFrom_countP (start n i : ℕ) :
    (chunkRangesFrom start n).countP (coversIdx i) =
      if start ≤ i ∧ i < n then 1 else 0 := by
  have hk : 0 < kMaxCommands := by norm_num [kMaxCommands]
  unfold chunkRangesFrom
  split
  · next hlt =>
    rw [List.countP_cons]
    have ih := chunkRangesFrom_countP (start + kMaxCommands) n i
    rw [ih]
    simp only [coversIdx, Bool.and_eq_true, decide_eq_true_eq]
    split_ifs <;> omega
  · next hge =>
    simp only [List.countP_nil]
    split_ifs <;> omega
termination_by n - start
decreasing_by simp [kMaxCommands]; omega

theorem chunkRangesFrom_bounds (start n : ℕ) :
    ∀ r ∈ chunkRangesFrom start n, 0 < r.2 ∧ r.2 ≤ kMaxCommands := by
  have hk : 0 < kMaxCommands := by norm_num [kMaxCommands]
  unfold chunkRangesFrom
  split
  · next hlt =>
    intro r hr
    rcases List.mem_cons.mp hr with h | h
    · subst h
      constructor
      · simp only []
        omega
      · exact min_le_right _ _
    · exact chunkRangesFrom_bounds (start + kMaxCommands) n r h
  · intro r hr
    simp at hr
termination_by n - start
decreasing_by simp [kMaxCommands]; omega

theorem two_le_length_of_ne_mem {α : Type} {l : List α} {a b : α}
    (ha : a ∈ l) (hb : b ∈ l) (hne : a ≠ b) : 2 ≤ l.length := by
  cases l with
  | nil => simp at ha
  | cons x t =>
    cases t with
    | nil =>
      simp at ha hb
      exact absurd (ha.trans hb.symm) hne
    | cons y u =>
      simp only [List.length_cons]
      omega

theorem chunkRanges_two_submissions (n : ℕ) (h : kMaxCommands < n) :
    2 ≤ (chunkRanges n).length := by
  have hc0 : 0 < (chunkRangesFrom 0 n).countP (coversIdx 0) := by
    rw [chunkRangesFrom_countP,
      if_pos (show 0 ≤ 0 ∧ 0 < n from ⟨le_rfl, by omega⟩)]
    exact Nat.one_pos
  have hck : 0 < (chunkRangesFrom 0 n).countP (coversIdx kMaxCommands) := by
    rw [chunkRangesFrom_countP,
      if_pos (show 0 ≤ kMaxCommands ∧ kMaxCommands < n from
        ⟨Nat.zero_le _, h⟩)]
    exact Nat.one_pos
  obtain ⟨r1, hr1m, hr1⟩ := List.countP_pos_iff.mp hc0
  obtain ⟨r2, hr2m, hr2⟩ := List.countP_pos_iff.mp hck
  have hb1 := chunkRangesFrom_bounds 0 n r1 hr1m
  have hne : r1 ≠ r2 := by
    intro he
    subst he
    simp only [coversIdx, Bool.and_eq_true, decide_eq_true_eq] at hr1 hr2
    omega
  exact two_le_length_of_ne_mem hr1m hr2m hne

/-! ## C6 -/

/-- C6: when the work-item count exceeds the per-submission capacity
`kMaxCommands = 8192`, the submission loop issues at least two
submissions, each of positive length at most `kMaxCommands`, and the
submitted ranges cover every work-item index below the count exactly once
and no index beyond it. -/
theorem chunked_submission_partition (n : ℕ) (h : kMaxCommands < n) :
    2 ≤ (chunkRanges n).length ∧
    (∀ r ∈ chunkRanges n, 0 < r.2 ∧ r.2 ≤ kMaxCommands) ∧
    ∀ i, (chunkRanges n).countP (coversIdx i) = if i < n then 1 else 0 := by
  refine ⟨chunkRanges_two_submissions n h, chunkRangesFrom_bounds 0 n,
    fun i => ?_⟩
  show (chunkRangesFrom 0 n).countP (coversIdx i) = _
  rw [chunkRangesFrom_countP]
  simp [Nat.zero_le]

/-- Witness for C6 at 10000 work items (two submissions: 8192 and 1808
items). -/
theorem chunked_submission_partition_witness :
    kMaxCommands < 10000 ∧
    (2 ≤ (chunkRanges 10000).length ∧
     (∀ r ∈ chunkRanges 10000, 0 < r.2 ∧ r.2 ≤ kMaxCommands) ∧
     ∀ i, (chunkRanges 10000).countP (coversIdx i) =
       if i < 10000 then 1 else 0) :=
  ⟨by norm_num [kMaxCommands],
   chunked_submission_partition 10000 (by norm_num [kMaxCommands])⟩

/-! ## C3 -/

theorem linesBufferSize_foldl_const (glyphs : List (ℕ × GlyphData)) :
    ∀ acc : ℕ, (∀ p ∈ glyphs, p.2.lines = []) →
      glyphs.foldl (fun acc p => if p.2.lines = [] then acc
        else acc + p.2.lines.length) acc = acc := by
  induction glyphs with
  | nil => intro acc _; rfl
  | cons a t ih =>
    intro acc h
    have ha : a.2.lines = [] := h a (List.mem_cons_self a t)
    rw [List.foldl_cons, if_pos ha]
    exact ih acc (fun p hp => h p (List.mem_cons_of_mem a hp))

theorem allWorkItems_nil (gs : GlyphSet)
    (h : ∀ p ∈ gs.glyphs, p.2.lines = []) : allWorkItems gs = [] := by
  unfold allWorkItems
  rw [List.flatMap_eq_nil_iff]
  intro p hp
  rw [if_pos (h p hp)]

/-- C3: if every glyph's line list is empty, `GlyphTexture::generate`
short-circuits before creating any compute work (no work items) and
returns a 1×1 single-channel texture whose only texel holds the fully
"outside" byte 0 — an ordinary result of `generate`, not an error. -/
theorem zero_segments_placeholder (gs : GlyphSet)
    (h : ∀ p ∈ gs.glyphs, p.2.lines = []) :
    generate gs = .placeholder 1 1 [outsideByte] ∧ allWorkItems gs = [] := by
  refine ⟨?_, allWorkItems_nil gs h⟩
  have h0 : linesBufferSize gs.glyphs = 0 :=
    linesBufferSize_foldl_const gs.glyphs 0 h
  unfold generate
  rw [if_pos h0]

/-- Witness for C3: a glyph set whose only glyph (the space) has no
segments. -/
theorem zero_segments_placeholder_witness :
    (∀ p ∈ wsEmptyGlyphSet.glyphs, p.2.lines = []) ∧
    (generate wsEmptyGlyphSet = .placeholder 1 1 [outsideByte] ∧
     allWorkItems wsEmptyGlyphSet = []) :=
  ⟨by decide, zero_segments_placeholder wsEmptyGlyphSet (by decide)⟩

/-! ## C2 -/

theorem mem_allWorkItems (gs : GlyphSet) (it : WorkItem)
    (hm : it ∈ allWorkItems gs) :
    ∃ p ∈ gs.glyphs, p.2.lines ≠ [] ∧
      ∃ i j, i < p.2.pixelSizeX ∧ j < p.2.pixelSizeY ∧
        it.pixelOffset =
          (p.2.posInAtlasY + j) * gs.atlasSizeX + (p.2.posInAtlasX + i) := by
  unfold allWorkItems at hm
  rw [List.mem_flatMap] at hm
  obtain ⟨p, hp, hit⟩ := hm
  by_cases hl : p.2.lines = []
  · rw [if_pos hl] at hit
    simp at hit
  · rw [if_neg hl] at hit
    unfold glyphWorkItems at hit
    rw [List.mem_flatMap] at hit
    obtain ⟨j, hj, hit⟩ := hit
    rw [List.mem_map] at hit
    obtain ⟨i, hi, hit⟩ := hit
    refine ⟨p, hp, hl, i, j, List.mem_range.mp hi, List.mem_range.mp hj, ?_⟩
    rw [← hit]

theorem runItems_untouched (u : WorkItem → ℤ × ℕ → ℤ × ℕ) :
    ∀ (items : List WorkItem) (a : ℕ → ℤ × ℕ) (p : ℕ),
      (∀ it ∈ items, it.pixelOffset ≠ p) → runItems u items a p = a p := by
  intro items
  induction items with
  | nil => intro a p _; rfl
  | cons it ts ih =>
    intro a p h
    have hne := h it (List.mem_cons_self it ts)
    show runItems u ts (updateAt it.pixelOffset (u it) a) p = a p
    rw [ih _ p (fun z hz => h z (List.mem_cons_of_mem it hz))]
    unfold updateAt
    rw [if_neg (Ne.symm hne)]

theorem atlas_offset_inj (W a b y x : ℕ) (hb : b < W) (hx : x < W)
    (he : a * W + b = y * W + x) : b = x ∧ a = y := by
  have h1 : (a * W + b) % W = b := by
    rw [Nat.mul_comm, Nat.mul_add_mod]
    exact Nat.mod_eq_of_lt hb
  have h2 : (y * W + x) % W = x := by
    rw [Nat.mul_comm, Nat.mul_add_mod]
    exact Nat.mod_eq_of_lt hx
  have hbx : b = x := by rw [← h1, he, h2]
  subst hbx
  have hmul : a * W = y * W := by omega
  have hW : 0 < W := by omega
  exact ⟨rfl, Nat.eq_of_mul_eq_mul_right hW hmul⟩

/-- C2: a pixel lying outside every glyph's atlas rectangle is addressed
by no SDF-generation work item, so after running all work items (for any
per-item update `u`) its accumulators keep their initialized defaults
(`INT_MAX`, parity 0) and the written texture byte is the fully "outside"
value; the glyph rectangles are assumed atlas-contained (the packer's
invariant). -/
theorem outside_pixels_default (gs : GlyphSet) (x y : ℕ)
    (u : WorkItem → ℤ × ℕ → ℤ × ℕ)
    (hcont : ∀ p ∈ gs.glyphs, p.2.lines ≠ [] →
      p.2.posInAtlasX + p.2.pixelSizeX ≤ gs.atlasSizeX)
    (hx : x < gs.atlasSizeX)
    (hout : ∀ p ∈ gs.glyphs,
      ¬(p.2.posInAtlasX ≤ x ∧ x < p.2.posInAtlasX + p.2.pixelSizeX ∧
        p.2.posInAtlasY ≤ y ∧ y < p.2.posInAtlasY + p.2.pixelSizeY)) :
    (∀ it ∈ allWorkItems gs,
      it.pixelOffset ≠ y * gs.atlasSizeX + x) ∧
    runItems u (allWorkItems gs) initAccum (y * gs.atlasSizeX + x) =
      (intMax, 0) ∧
    writeTexturePixel
      (runItems u (allWorkItems gs) initAccum (y * gs.atlasSizeX + x)).1
      (runItems u (allWorkItems gs) initAccum (y * gs.atlasSizeX + x)).2 =
      outsideByte := by
  have hno : ∀ it ∈ allWorkItems gs,
      it.pixelOffset ≠ y * gs.atlasSizeX + x := by
    intro it hm he
    obtain ⟨p, hp, hl, i, j, hi, hj, hoff⟩ := mem_allWorkItems gs it hm
    rw [hoff] at he
    have hcw := hcont p hp hl
    obtain ⟨e1, e2⟩ := atlas_offset_inj gs.atlasSizeX
      (p.2.posInAtlasY + j) (p.2.posInAtlasX + i) y x (by omega) hx he
    exact hout p hp ⟨by omega, by omega, by omega, by omega⟩
  have hrun : runItems u (allWorkItems gs) initAccum
      (y * gs.atlasSizeX + x) = initAccum (y * gs.atlasSizeX + x) :=
    runItems_untouched u (allWorkItems gs) initAccum
      (y * gs.atlasSizeX + x) hno
  refine ⟨hno, ?_, ?_⟩
  · rw [hrun]
    rfl
  · rw [hrun]
    show writeTexturePixel intMax 0 = outsideByte
    decide

/-- Witness for C2: pixel (7, 7) of the 8×8 atlas of `wsGlyphSet` lies
outside both non-empty glyph rectangles. -/
theorem outside_pixels_default_witness :
    ((∀ p ∈ wsGlyphSet.glyphs, p.2.lines ≠ [] →
        p.2.posInAtlasX + p.2.pixelSizeX ≤ wsGlyphSet.atlasSizeX) ∧
     7 < wsGlyphSet.atlasSizeX ∧
     (∀ p ∈ wsGlyphSet.glyphs,
       ¬(p.2.posInAtlasX ≤ 7 ∧ 7 < p.2.posInAtlasX + p.2.pixelSizeX ∧
         p.2.posInAtlasY ≤ 7 ∧ 7 < p.2.posInAtlasY + p.2.pixelSizeY))) ∧
    ((∀ it ∈ allWorkItems wsGlyphSet,
       it.pixelOffset ≠ 7 * wsGlyphSet.atlasSizeX + 7) ∧
     runItems (fun _ a => a) (allWorkItems wsGlyphSet) initAccum
       (7 * wsGlyphSet.atlasSizeX + 7) = (intMax, 0) ∧
     writeTexturePixel
       (runItems (fun _ a => a) (allWorkItems wsGlyphSet) initAccum
         (7 * wsGlyphSet.atlasSizeX + 7)).1
       (runItems (fun _ a => a) (allWorkItems wsGlyphSet) initAccum
         (7 * wsGlyphSet.atlasSizeX + 7)).2 = outsideByte) :=
  ⟨⟨by decide, by decide, by decide⟩,
   outside_pixels_default wsGlyphSet 7 7 (fun _ a => a)
     (by decide) (by decide) (by decide)⟩

end SdfText
